import Mathlib

/-!
Verification of the chat-triggered-feature core of the modbot repository
(`src/database/ChatTriggeredFeature.js`) against its natural-language
specification.

The JavaScript source is shallowly embedded as executable Lean definitions:

* strings are `String` / `List Char` (all inputs considered are ASCII, so
  `Char.toLower` agrees with JS `toLowerCase` and `String.length` agrees with
  the JS UTF-16 length);
* JS numbers are modelled exactly: ids as `Int`, the phishing similarity
  arithmetic as `ℚ` (the IEEE doubles arising here are decimal literals and
  small ratios, compared away from rounding boundaries), with `JsNum` adding
  the `NaN`/`±Infinity` points that `parseFloat` can produce;
* the two regex literals of the phishing branch, the lookbehind split of the
  regex-trigger validator and `String.prototype.split` are hand-translated
  into deterministic functions reproducing the backtracking behaviour of the
  JS engine on their specific patterns;
* the external JS `RegExp` engine used by the `regex` trigger kind is a
  parameter (`rt` for `test`, `compiles` for construction success): no claim
  depends on its internals;
* `discord.js` `Collection` values are association lists `List (key × value)`
  with `Map.set` semantics (overwrite keeps the original position), and the
  static per-table cache is a `CacheState` of two such maps;
* the database is a `List Row` and queries are filters over it; `LIKE`
  patterns built from digit-only snowflakes are substring tests.
-/

/-! ## Small string helpers (JS semantics) -/

/-- Character class of the JS `\s` escape restricted to the characters that can
occur in the inputs considered here (ASCII whitespace plus NBSP). -/
def jsIsSpace (c : Char) : Bool :=
  c = ' ' || c = '\t' || c = '\n' || c = '\r' || c = '\x0b' || c = '\x0c' || c = ' '

/-- Character class of the JS `\w` escape (also under the `i` flag): ASCII
letters, digits and underscore.  Used for the `\b` word-boundary test. -/
def isWordChar (c : Char) : Bool :=
  ('a' ≤ c && c ≤ 'z') || ('A' ≤ c && c ≤ 'Z') || ('0' ≤ c && c ≤ '9') || c = '_'

/-- Lower-casing of a character list, modelling JS `toLowerCase` on the ASCII
strings that occur here. -/
def lcList (l : List Char) : List Char := l.map Char.toLower

/-- Test whether `n` is a leading run of `h` (`n` is a prefixed segment of
`h`). -/
def isHeadOf : List Char → List Char → Bool
  | [], _ => true
  | _ :: _, [] => false
  | a :: t, b :: u => a = b && isHeadOf t u

/-- JS `String.prototype.includes`: `needle` occurs contiguously inside
`hay`. -/
def strContains (hay needle : List Char) : Bool :=
  isHeadOf needle hay ||
    match hay with
    | [] => false
    | _ :: t => strContains t needle

/-- JS `String.prototype.endsWith`: `suf` is a trailing run of `hay`. -/
def strEndsWith (hay suf : List Char) : Bool :=
  isHeadOf suf.reverse hay.reverse

/-- JS `String.prototype.split` with a single-character separator:
`"".split(c) = [""]`, separators at the edges produce empty segments. -/
def splitOnChar (sep : Char) : List Char → List (List Char)
  | [] => [[]]
  | c :: t =>
    if c = sep then [] :: splitOnChar sep t
    else
      match splitOnChar sep t with
      | [] => [[c]]
      | h :: r => (c :: h) :: r

/-- JS `split(/,\s?/g)`: split on a comma followed by at most one whitespace
character (used for the alternate-extension list of a phishing trigger). -/
def splitCommaWs : List Char → List (List Char)
  | [] => [[]]
  | ',' :: c2 :: t2 =>
    if jsIsSpace c2 then [] :: splitCommaWs t2 else [] :: splitCommaWs (c2 :: t2)
  | ',' :: [] => [[], []]
  | c :: t =>
    match splitCommaWs t with
    | [] => [[c]]
    | h :: r => (c :: h) :: r

/-- Destructuring `let [a, b] = s.split(':')` of the phishing branch: the text
before the first colon, and (when a colon is present) the text between the
first and second colons. -/
def jsSplitColon2 (l : List Char) : List Char × Option (List Char) :=
  match splitOnChar ':' l with
  | [] => (l, none)
  | [a] => (a, none)
  | a :: b :: _ => (a, some b)

/-! ## JS numbers and `parseFloat` -/

/-- Value set of the JS numbers reachable from `parseFloat`: exact rationals in
place of IEEE doubles, plus `NaN` and the infinities. -/
inductive JsNum where
  | nan
  | posInf
  | negInf
  | val (q : ℚ)
deriving DecidableEq

/-- Numeric value of a digit run (most significant first). -/
def digitsVal (l : List Char) : Nat :=
  l.foldl (fun a c => a * 10 + (c.toNat - 48)) 0

/-- Exponent tail of a decimal literal: after `e`/`E`, an optional sign and a
digit run; an exponent with no digits is not consumed (contributes `0`). -/
def parseExpTail (l : List Char) : Int :=
  let p : Bool × List Char :=
    match l with
    | '-' :: t => (true, t)
    | '+' :: t => (false, t)
    | _ => (false, l)
  let ds := p.2.takeWhile Char.isDigit
  if ds = [] then 0
  else if p.1 then -(digitsVal ds : Int) else (digitsVal ds : Int)

/-- JS `parseFloat`: skip leading whitespace, optional sign, then the longest
decimal-literal prefix (`Infinity`, or digits with optional fraction and
exponent); `NaN` when no prefix parses. -/
def jsParseFloat (s : List Char) : JsNum :=
  let s1 := s.dropWhile jsIsSpace
  let sg : Bool × List Char :=
    match s1 with
    | '-' :: t => (true, t)
    | '+' :: t => (false, t)
    | _ => (false, s1)
  if isHeadOf ['I','n','f','i','n','i','t','y'] sg.2 then
    if sg.1 then .negInf else .posInf
  else
    let ip := sg.2.takeWhile Char.isDigit
    let r1 := sg.2.dropWhile Char.isDigit
    let fp : List Char × List Char :=
      match r1 with
      | '.' :: t => (t.takeWhile Char.isDigit, t.dropWhile Char.isDigit)
      | _ => ([], r1)
    if ip = [] ∧ fp.1 = [] then .nan
    else
      let e : Int :=
        match fp.2 with
        | 'e' :: t => parseExpTail t
        | 'E' :: t => parseExpTail t
        | _ => 0
      let n : Nat := (digitsVal ip * 10 ^ fp.1.length + digitsVal fp.1) * 10 ^ e.toNat
      let den : Nat := 10 ^ (fp.1.length + (-e).toNat)
      .val (mkRat (if sg.1 then -(n : Int) else (n : Int)) den)

/-- The `parseFloat(similarity) || 0.5` idiom: `NaN` (including the absent
case) and `0`/`-0` are falsy and replaced by `0.5`; infinities are truthy and
kept. -/
def simThreshold (o : Option (List Char)) : JsNum :=
  match (match o with | none => JsNum.nan | some s => jsParseFloat s) with
  | .nan => .val (mkRat 1 2)
  | .val q => if q = 0 then .val (mkRat 1 2) else .val q
  | x => x

/-- JS `>=` between a real score and a possibly non-finite threshold (`NaN`
compares false). -/
def geThreshold (d : ℚ) : JsNum → Bool
  | .val q => d ≥ q
  | .posInf => false
  | .negInf => true
  | .nan => false

/-! ## Dice bigram similarity (the `string-similarity` dependency)

`stringSimilarity.compareTwoStrings` of the `string-similarity` npm package:
strip whitespace, return `1` on equality, `0` when either string is shorter
than two characters, otherwise twice the multiset-intersection count of
adjacent-character bigrams divided by the total bigram count. -/

/-- Adjacent-character bigrams of a string. -/
def bigrams : List Char → List (Char × Char)
  | a :: b :: t => (a, b) :: bigrams (b :: t)
  | _ => []

/-- Remove one occurrence of `x`, if present. -/
def removeOne (x : Char × Char) : List (Char × Char) → Option (List (Char × Char))
  | [] => none
  | y :: t => if y = x then some t else (removeOne x t).map (y :: ·)

/-- Multiset intersection size of two bigram lists, as computed by the
count-map loop of `compareTwoStrings`. -/
def interCount : List (Char × Char) → List (Char × Char) → Nat
  | _, [] => 0
  | fs, x :: t =>
    match removeOne x fs with
    | some fs2 => interCount fs2 t + 1
    | none => interCount fs t

/-- `stringSimilarity.compareTwoStrings`, over exact rationals (the final
division `2 * I / (len f + len s - 2)` is exact; both lengths are at least two
in that branch, so the natural subtraction agrees with the JS one). -/
def compareTwoStrings (a b : List Char) : ℚ :=
  let f := a.filter (fun c => !jsIsSpace c)
  let s := b.filter (fun c => !jsIsSpace c)
  if f = s then mkRat 1 1
  else if f.length < 2 ∨ s.length < 2 then mkRat 0 1
  else mkRat (2 * (interCount (bigrams f) (bigrams s) : Int)) (f.length + s.length - 2)

/-! ## The phishing-trigger domain-spec pattern

JS `domain.match(/^([^\/]+)\.([^.\/(]+)(?:\(([^)]+)\))?$/)`: group 1 is a
greedy slash-free run, then a literal dot, group 2 a greedy run without dot,
slash or opening parenthesis, then optionally a parenthesised group 3 without
closing parentheses.  The backtracking search reduces to: try each candidate
dot position from the right (group 1 must be nonempty and slash-free), and for
each, take the maximal group 2; the optional group must then consume exactly
the remainder. -/

/-- Match `([^.\/(]+)(?:\(([^)]+)\))?$` against the text after the chosen
dot. -/
def restMatch (r : List Char) : Option (List Char × Option (List Char)) :=
  let g2 := r.takeWhile (fun c => c ≠ '.' && c ≠ '/' && c ≠ '(')
  let rem := r.drop g2.length
  if g2 = [] then none
  else
    match rem with
    | [] => some (g2, none)
    | '(' :: t =>
      match t.reverse with
      | ')' :: revC =>
        let C := revC.reverse
        if C ≠ [] ∧ C.all (· ≠ ')') then some (g2, some C) else none
      | _ => none
    | _ => none

/-- The anchored domain-spec regex: `some (mainPart, extension, alternates?)`
on a match, `none` otherwise. -/
def domainSpecMatch (l : List Char) : Option (List Char × List Char × Option (List Char)) :=
  let cands := ((List.range l.length).filter fun d =>
    decide (1 ≤ d) && decide (l.getD d ' ' = '.') && (l.take d).all (· ≠ '/')).reverse
  cands.findSome? fun d =>
    match restMatch (l.drop (d + 1)) with
    | some (g2, alt) => some (l.take d, g2, alt)
    | none => none

/-! ## The link-scanning pattern

JS `/https?:\/\/([^\/]+)\.([^.\/]+)\b/ig` driven by `exec` in a loop: find
successive non-overlapping matches left to right.  After the scheme, group 1
and group 2 live inside the slash-free region; the greedy search tries dots
from the right and, for each, group 2 sizes from the maximal one down, until
the word-boundary test succeeds. -/

/-- Case-insensitive literal prefix: on success, the remainder of `l`. -/
def dropLitCI : List Char → List Char → Option (List Char)
  | [], l => some l
  | _ :: _, [] => none
  | p :: ps, c :: cs => if c.toLower = p then dropLitCI ps cs else none

/-- Body of the link pattern after the scheme: `some (group1, group2, rest)`
where `rest` is the text after the match end. -/
def linkBody (l : List Char) : Option (List Char × List Char × List Char) :=
  let region := l.takeWhile (· ≠ '/')
  let tl := l.drop region.length
  let dots := ((List.range region.length).filter fun d =>
    decide (1 ≤ d) && decide (region.getD d ' ' = '.')).reverse
  dots.findSome? fun d =>
    let g2max := (region.drop (d + 1)).takeWhile (· ≠ '.')
    (((List.range g2max.length).map (· + 1)).reverse).findSome? fun e =>
      let lastC := region.getD (d + e) ' '
      let nextC : Option Char :=
        if d + e + 1 < region.length then some (region.getD (d + e + 1) ' ')
        else tl.head?
      let bOk : Bool :=
        match nextC with
        | none => isWordChar lastC
        | some c => isWordChar lastC != isWordChar c
      if bOk then some (region.take d, g2max.take e, l.drop (d + e + 1)) else none

/-- One attempt of the link pattern anchored at the start of `l` (the `s` of
`https?` is preferred, as the greedy `s?` does). -/
def linkMatchAt (l : List Char) : Option (List Char × List Char × List Char) :=
  match dropLitCI ['h','t','t','p','s',':','/','/'] l with
  | some rest => linkBody rest
  | none =>
    match dropLitCI ['h','t','t','p',':','/','/'] l with
    | some rest => linkBody rest
    | none => none

/-- Global `exec` loop: collect `(group1, group2)` of successive matches.  The
fuel starts at `length + 1`; every step consumes at least one character, so it
never runs out. -/
def scanLinks : Nat → List Char → List (List Char × List Char)
  | 0, _ => []
  | _ + 1, [] => []
  | fuel + 1, c :: t =>
    match linkMatchAt (c :: t) with
    | some (g1, g2, rest) => (g1, g2) :: scanLinks fuel rest
    | none => scanLinks fuel t

/-- All `(group1, group2)` pairs the scanning regex yields on a message. -/
def findLinks (msg : List Char) : List (List Char × List Char) :=
  scanLinks (msg.length + 1) msg

/-! ## The trigger record and the matcher -/

/-- Modelled from the spec: the `Trigger` value type (`Trigger.js` is not part
of the sources); a plain holder of a kind, content and optional regex
flags. -/
structure Trigger where
  type : String
  content : String
  flags : Option String
deriving DecidableEq

/-- Source line 29: the recognised trigger kinds. -/
def triggerTypes : List String := ["regex", "include", "match", "phishing"]

/-- Per-link body of the phishing `while` loop: skip a legitimate link
(expected domain or a subdomain of it, with an allowed extension), flag a
main-part match with a disallowed extension, otherwise flag a main part whose
Dice similarity to the expected one reaches the threshold. -/
def checkFound (expDom : List Char) (exts : List (List Char)) (sim : JsNum)
    (p : List Char × List Char) : Bool :=
  if p.1 = [] ∨ p.2 = [] then false
  else
    let fd := lcList p.1
    let fe := lcList p.2
    let mainPart : Bool := fd = expDom || strEndsWith fd ('.' :: expDom)
    if mainPart && decide (fe ∈ exts) then false
    else if mainPart && !(decide (fe ∈ exts)) then true
    else geThreshold (compareTwoStrings expDom fd) sim

/-- The phishing branch of `matches`, factored through the colon split. -/
def phishingRun (pair : List Char × Option (List Char)) (msg : List Char) : Bool :=
  let sim := simThreshold pair.2
  let domain := lcList pair.1
  match domainSpecMatch domain with
  | none => false
  | some (p1, p2, alt) =>
    if p1 = [] ∨ p2 = [] then false
    else
      let exts :=
        match alt with
        | some a => p2 :: splitCommaWs (lcList a)
        | none => [p2]
      (findLinks msg).any (checkFound p1 exts sim)

/-- The `case 'phishing'` branch of `matches` (source lines 131-167). -/
def phishingMatches (content msg : List Char) : Bool :=
  phishingRun (jsSplitColon2 content) msg

/-- `ChatTriggeredFeature.matches` (source lines 109-171; the source name `matches` is a Lean keyword, hence the `ctf` head).  The external JS
`RegExp` engine of the `regex` branch is the parameter `rt pattern flags
text`; the switch falls through to `false` on an unrecognised kind. -/
def ctfMatches (rt : String → Option String → String → Bool) (t : Trigger)
    (msg : String) : Bool :=
  if t.type = "include" then strContains (lcList msg.data) (lcList t.content.data)
  else if t.type = "match" then decide (lcList msg.data = lcList t.content.data)
  else if t.type = "regex" then rt t.content t.flags msg
  else if t.type = "phishing" then phishingMatches t.content.data msg.data
  else false

/-- A fixed oracle for closed evaluations of branches that do not consult the
regex engine. -/
def rtFalse : String → Option String → String → Bool := fun _ _ _ => false

/-! ## The claim-side right-split parse

C1/C4 describe the colon split of a phishing trigger as happening at the first
colon from the right; this variant implements that reading (everything after
the split is shared with `phishingMatches`). -/

/-- Split at the last colon: text before it, text after it. -/
def jsSplitColonRight (l : List Char) : List Char × Option (List Char) :=
  match splitOnChar ':' l with
  | [] => (l, none)
  | [_] => (l, none)
  | a :: b :: r =>
    (((a :: b :: r).dropLast.intersperse [':']).flatten,
      some ((b :: r).getLast (by simp)))

/-- The phishing matcher as the claim words it: threshold taken at the last
colon. -/
def phishingRightSplit (content msg : List Char) : Bool :=
  phishingRun (jsSplitColonRight content) msg

/-! ## The persisted rows, records and caches -/

/-- A row of the feature table as `fromData` consumes it: the serialised
trigger is carried as the already-decoded `Trigger` (the JSON round trip is
the identity), `global` is the stored `0`/`1` integer and `channels` the
comma-joined id list. -/
structure Row where
  id : Int
  guildid : String
  trigger : Trigger
  global : Int
  channels : String
deriving DecidableEq

/-- A feature record.  Modelled from the spec for the field layout (the
subclass constructors live outside the sources): id unset before the first
persist, a trigger, the global flag, the guild id and the channel id list. -/
structure Record where
  id : Option Int
  trigger : Trigger
  global : Bool
  gid : String
  channels : List String
deriving DecidableEq

/-- `ChatTriggeredFeature.fromData` (source lines 296-305): `global` is
`data.global === 1` and `channels` is `data.channels.split(',')`. -/
def fromData (r : Row) : Record :=
  { id := some r.id
    trigger := r.trigger
    global := decide (r.global = 1)
    gid := r.guildid
    channels := (splitOnChar ',' r.channels.data).map fun l => String.mk l }

/-- JS truthiness of `this.id` (`undefined` and `0` are falsy). -/
def jsTruthyId : Option Int → Bool
  | none => false
  | some n => n ≠ 0

/-- A `discord.js` `Collection` of records keyed by id: an association list in
insertion order. -/
abbrev Coll : Type := List (Int × Record)

/-- `Map.set` semantics: overwrite in place when the key exists, else
append. -/
def collSet (c : Coll) (k : Int) (v : Record) : Coll :=
  match c with
  | [] => [(k, v)]
  | (k2, v2) :: t =>
    if k2 = k then (k, v) :: t else (k2, v2) :: collSet t k v

/-- `Collection.concat`: clone the first collection, then `set` every entry of
the second into it. -/
def collConcat (a b : Coll) : Coll :=
  b.foldl (fun acc kv => collSet acc kv.1 kv.2) a

/-- Build a collection from query results, `set`ting each row under its id in
order. -/
def collOfRows (rows : List Row) : Coll :=
  rows.foldl (fun c row => collSet c row.id (fromData row)) []

/-- Numeric id a record presents to the sort comparator (`a.id - b.id`);
db-loaded records always carry one. -/
def idOf (r : Record) : Int := r.id.getD 0

/-- Stable insertion of an entry into a collection sorted ascending by record
id. -/
def insertById (x : Int × Record) : Coll → Coll
  | [] => [x]
  | y :: t => if idOf x.2 ≤ idOf y.2 then x :: y :: t else y :: insertById x t

/-- `Collection.sort((a, b) => a.id - b.id)`: a stable ascending sort by
record id. -/
def sortById : Coll → Coll
  | [] => []
  | x :: t => insertById x (sortById t)

/-- The pair of scope maps of `ChatTriggeredFeature.getCache()` for one
table: channel-keyed and guild-keyed collections. -/
structure CacheState where
  channels : List (String × Coll)
  guilds : List (String × Coll)
deriving DecidableEq

/-- Lookup of the first binding of a key in a scope map. -/
def lookupKey (m : List (String × Coll)) (k : String) : Option Coll :=
  match m with
  | [] => none
  | (k2, v) :: t => if k2 = k then some v else lookupKey t k

/-- `Map.has`. -/
def hasKey (m : List (String × Coll)) (k : String) : Bool :=
  (lookupKey m k).isSome

/-- `Map.set` on a scope map. -/
def setKey (m : List (String × Coll)) (k : String) (v : Coll) : List (String × Coll) :=
  match m with
  | [] => [(k, v)]
  | (k2, v2) :: t =>
    if k2 = k then (k, v) :: t else (k2, v2) :: setKey t k v

/-- The empty cache. -/
def emptyCache : CacheState := ⟨[], []⟩

/-! ## Store queries and scope reloads -/

/-- Rows selected by `SELECT * ... WHERE channels LIKE ?` with the pattern
`%<channelId>%`: channel ids are digit-only snowflakes, so the `LIKE` is a
plain substring test on the stored comma-joined channel list. -/
def channelQueryRows (table : List Row) (cid : String) : List Row :=
  table.filter fun row => strContains row.channels.data cid.data

/-- Rows selected by `SELECT * ... WHERE guildid = ? AND global = TRUE`. -/
def guildQueryRows (table : List Row) (gid : String) : List Row :=
  table.filter fun row => decide (row.guildid = gid) && decide (row.global = 1)

/-- `ChatTriggeredFeature.refreshChannel` (source lines 406-418): install the
channel query result under the channel key.  The eviction timer is outside
the model. -/
def refreshChannel (table : List Row) (cid : String) (st : CacheState) : CacheState :=
  { st with channels := setKey st.channels cid (collOfRows (channelQueryRows table cid)) }

/-- `ChatTriggeredFeature.refreshGuild` (source lines 387-399). -/
def refreshGuild (table : List Row) (gid : String) (st : CacheState) : CacheState :=
  { st with guilds := setKey st.guilds gid (collOfRows (guildQueryRows table gid)) }

/-- `ChatTriggeredFeature.get` (source lines 351-362): reload either scope on
a cache miss, then return the concatenation of the two cached collections
sorted ascending by id, together with the updated cache. -/
def ctfGet (table : List Row) (cid gid : String) (st : CacheState) :
    Coll × CacheState :=
  let st1 := if hasKey st.channels cid then st else refreshChannel table cid st
  let st2 := if hasKey st1.guilds gid then st1 else refreshGuild table gid st1
  (sortById (collConcat ((lookupKey st2.channels cid).getD [])
      ((lookupKey st2.guilds gid).getD [])), st2)

/-- `ChatTriggeredFeature.getAll` (source lines 370-380): an uncached read of
every row of the guild, as an id-sorted collection. -/
def getAllColl (table : List Row) (gid : String) : Coll :=
  sortById (collOfRows (table.filter fun row => decide (row.guildid = gid)))

/-! ## save: the database phase and the cache phase -/

/-- A write issued to the backing store. -/
inductive DbWrite (α : Type) where
  | ins (vals : List α)
  | upd (vals : List α) (id : Int)
deriving DecidableEq

/-- The database half of `ChatTriggeredFeature.save` (source lines 234-253).
On the update path (truthy id) the declared column count is compared with the
length of the serialised data *before* the query is issued and a string is
thrown on mismatch; the insert path builds the placeholder list from the
column count and issues the query without any such check. -/
def saveDbPhase (α : Type) (columns : List String) (id : Option Int)
    (data : List α) : Except String (DbWrite α) :=
  if jsTruthyId id then
    if data.length ≠ columns.length then .error "Unable to update, lengths differ!"
    else .ok (.upd data (id.getD 0))
  else
    .ok (.ins data)

/-- The cache half of `ChatTriggeredFeature.save` (source lines 255-264), run
after the database write assigned `i` as the record id: a global record is
`set` into the guild cache entry of its guild when that entry exists;
otherwise the record is `set` into every cached channel entry among its
channels. -/
def saveCachePhase (r : Record) (i : Int) (st : CacheState) : CacheState :=
  if r.global then
    match lookupKey st.guilds r.gid with
    | none => st
    | some c => { st with guilds := setKey st.guilds r.gid (collSet c i r) }
  else
    { st with channels := r.channels.foldl (fun m ch =>
        match lookupKey m ch with
        | none => m
        | some c => setKey m ch (collSet c i r)) st.channels }

/-- The matching half of `ChatTriggeredFeature.remove` (source lines
274-289). -/
def removeCachePhase (r : Record) (st : CacheState) : CacheState :=
  if r.global then
    match lookupKey st.guilds r.gid with
    | none => st
    | some c => { st with guilds := setKey st.guilds r.gid (c.filter fun kv => decide (some kv.1 ≠ r.id)) }
  else
    { st with channels := r.channels.foldl (fun m ch =>
        match lookupKey m ch with
        | none => m
        | some c => setKey m ch (c.filter fun kv => decide (some kv.1 ≠ r.id))) st.channels }

/-! ## getTrigger and getGuildOverview -/

/-- Result shape of `ChatTriggeredFeature.getTrigger`. -/
structure TriggerResult where
  success : Bool
  message : Option String
  trigger : Option Trigger
deriving DecidableEq

/-- JS `value.split(/(?<!\\)\//)`: split at every `/` whose immediately
preceding character is not a backslash (a leading `/` splits). -/
def splitUnescapedSlash (l : List Char) : List (List Char) :=
  match l with
  | [] => [[]]
  | '/' :: t =>
    [] :: splitUnescapedSlash t
  | '\\' :: '/' :: t =>
    (match splitUnescapedSlash t with
     | [] => [['\\', '/']]
     | h :: r => ('\\' :: '/' :: h) :: r)
  | c :: t =>
    (match splitUnescapedSlash t with
     | [] => [[c]]
     | h :: r => (c :: h) :: r)

/-- `ChatTriggeredFeature.getTrigger` (source lines 324-342).  `compiles
pattern flags` stands for successful `new RegExp(pattern, flags)`
construction.  The function always returns a structured result. -/
def getTrigger (compiles : String → Option String → Bool) (type value : String) :
    TriggerResult :=
  if ¬ (type ∈ triggerTypes) then
    ⟨false, some "Usage: <type> <trigger>", none⟩
  else if value = "" then
    ⟨false, some "Empty triggers are not allowed", none⟩
  else if type = "regex" then
    let parts := splitUnescapedSlash value.data
    if parts.length < 2 ∨ (parts.headD []).length ≠ 0 then
      ⟨false, some "Invalid regex trigger", none⟩
    else
      let content := String.mk (parts.tail.headD [])
      let flags := (parts.tail.tail.head?).map String.mk
      if compiles content flags then
        ⟨true, none, some ⟨type, content, flags⟩⟩
      else ⟨false, some "Invalid regex trigger", none⟩
  else
    ⟨true, none, some ⟨type, value, none⟩⟩

/-- Chunking loop of `getGuildOverview` (source lines 212-224): grow the
current chunk while the next summary keeps it below 2000 characters, else
emit it and start over; a nonempty final chunk is emitted. -/
def chunkAux (text : String) : List String → List String
  | [] => if text = "" then [] else [text]
  | info :: rest =>
    if text.length + info.length < 2000 then chunkAux (text ++ info) rest
    else text :: chunkAux info rest

/-- The full chunking of an ordered list of summaries. -/
def chunkOverviews (l : List String) : List String := chunkAux "" l

/-- `ChatTriggeredFeature.getGuildOverview` (source lines 206-227), with the
abstract per-kind `getOverview` supplied as `ov`. -/
def getGuildOverview (table : List Row) (gid : String) (ov : Record → String) :
    Option (List String) :=
  let objs := getAllColl table gid
  if objs.isEmpty then none
  else some (chunkOverviews (objs.map fun kv => ov kv.2))

/-- Concatenation of a list of strings, for stating order preservation. -/
def joinStr (l : List String) : String := l.foldr (· ++ ·) ""

/-! ## Lemmas about the string helpers -/

theorem isHeadOf_iff (n : List Char) : ∀ h, isHeadOf n h = true ↔ ∃ t, h = n ++ t := by
  induction n with
  | nil => intro h; simp [isHeadOf]
  | cons a nt ih =>
    intro h
    cases h with
    | nil =>
      simp [isHeadOf]
    | cons b ht =>
      simp only [isHeadOf, Bool.and_eq_true, decide_eq_true_eq, ih, List.cons_append]
      constructor
      · rintro ⟨rfl, t, rfl⟩
        exact ⟨t, rfl⟩
      · rintro ⟨t, ht2⟩
        obtain ⟨rfl, rfl⟩ := List.cons.injEq .. ▸ ht2
        exact ⟨rfl, t, rfl⟩

theorem strContains_iff (h n : List Char) :
    strContains h n = true ↔ ∃ p s, h = p ++ n ++ s := by
  induction h with
  | nil =>
    simp only [strContains, Bool.or_false, isHeadOf_iff]
    constructor
    · rintro ⟨t, ht⟩
      exact ⟨[], t, by simpa using ht⟩
    · rintro ⟨p, s, hps⟩
      have h0 : p = [] ∧ n = [] ∧ s = [] := by
        simpa using hps.symm
      exact ⟨[], by simp [h0.2.1]⟩
  | cons c t ih =>
    simp only [strContains, Bool.or_eq_true, isHeadOf_iff, ih]
    constructor
    · rintro (⟨s, hs⟩ | ⟨p, s, hps⟩)
      · exact ⟨[], s, by simpa using hs⟩
      · exact ⟨c :: p, s, by simp [hps]⟩
    · rintro ⟨p, s, hps⟩
      cases p with
      | nil => exact Or.inl ⟨s, by simpa using hps⟩
      | cons c2 p2 =>
        right
        obtain ⟨rfl, h2⟩ := List.cons.injEq .. ▸ hps
        exact ⟨p2, s, h2⟩

theorem splitOnChar_ne_nil (sep : Char) (l : List Char) : splitOnChar sep l ≠ [] := by
  cases l with
  | nil => simp [splitOnChar]
  | cons c t =>
    rw [splitOnChar]
    by_cases hc : c = sep
    · simp [hc]
    · simp only [if_neg hc]
      cases hs : splitOnChar sep t <;> simp

theorem splitOnChar_flatten (sep : Char) (l : List Char) :
    ((splitOnChar sep l).intersperse [sep]).flatten = l := by
  induction l with
  | nil => simp [splitOnChar]
  | cons c t ih =>
    rw [splitOnChar]
    by_cases hc : c = sep
    · rw [if_pos hc]
      cases hs : splitOnChar sep t with
      | nil => exact absurd hs (splitOnChar_ne_nil sep t)
      | cons h r =>
        rw [hs] at ih
        simp [List.intersperse, ih, hc]
    · rw [if_neg hc]
      cases hs : splitOnChar sep t with
      | nil => exact absurd hs (splitOnChar_ne_nil sep t)
      | cons h r =>
        rw [hs] at ih
        cases r with
        | nil => simpa [List.intersperse] using ih
        | cons h2 r2 => simpa [List.intersperse] using ih

theorem mem_intersperse_flatten (p : List Char) (sepL : List Char) :
    ∀ ps : List (List Char), p ∈ ps → ∃ A B, (ps.intersperse sepL).flatten = A ++ p ++ B := by
  intro ps
  induction ps with
  | nil => simp
  | cons x r ih =>
    intro hmem
    rcases List.mem_cons.mp hmem with rfl | hmem2
    · cases r with
      | nil => exact ⟨[], [], by simp [List.intersperse]⟩
      | cons y r2 =>
        exact ⟨[], sepL ++ ((y :: r2).intersperse sepL).flatten, by simp [List.intersperse]⟩
    · cases r with
      | nil => simp at hmem2
      | cons y r2 =>
        obtain ⟨A, B, hAB⟩ := ih hmem2
        exact ⟨x ++ sepL ++ A, B, by simp [List.intersperse, hAB]⟩

theorem splitOnChar_mem_infix (sep : Char) (l p : List Char)
    (hp : p ∈ splitOnChar sep l) : ∃ A B, l = A ++ p ++ B := by
  obtain ⟨A, B, hAB⟩ := mem_intersperse_flatten p [sep] (splitOnChar sep l) hp
  exact ⟨A, B, by rw [← splitOnChar_flatten sep l, hAB]⟩

theorem splitOnChar_not_mem (sep : Char) (l : List Char) (h : sep ∉ l) :
    splitOnChar sep l = [l] := by
  induction l with
  | nil => rfl
  | cons c t ih =>
    rw [splitOnChar]
    have hc : ¬ c = sep := fun hc => h (hc ▸ List.mem_cons_self c t)
    rw [if_neg hc, ih (fun hm => h (List.mem_cons_of_mem c hm))]

theorem splitOnChar_append_sep (sep : Char) (a b : List Char) (h : sep ∉ a) :
    splitOnChar sep (a ++ sep :: b) = a :: splitOnChar sep b := by
  induction a with
  | nil => simp [splitOnChar]
  | cons c t ih =>
    have hc : ¬ c = sep := fun hc => h (hc ▸ List.mem_cons_self c t)
    rw [List.cons_append, splitOnChar, if_neg hc,
      ih (fun hm => h (List.mem_cons_of_mem c hm))]

/-! ## Lemmas about the scope maps and collections -/

theorem lookupKey_setKey_self (m : List (String × Coll)) (k : String) (v : Coll) :
    lookupKey (setKey m k v) k = some v := by
  induction m with
  | nil => simp [setKey, lookupKey]
  | cons e t ih =>
    rw [setKey]
    by_cases he : e.1 = k
    · simp [lookupKey, he]
    · simp only [if_neg he]
      rw [lookupKey, if_neg he]
      exact ih

theorem lookupKey_setKey_ne (m : List (String × Coll)) (k k2 : String) (v : Coll)
    (h : k2 ≠ k) : lookupKey (setKey m k v) k2 = lookupKey m k2 := by
  have hk : ¬ k = k2 := fun h2 => h h2.symm
  induction m with
  | nil =>
    simp [setKey, lookupKey, hk]
  | cons e t ih =>
    rw [setKey]
    by_cases he : e.1 = k
    · have he2 : ¬ e.1 = k2 := fun h2 => h (h2.symm.trans he)
      rw [if_pos he, lookupKey, lookupKey, if_neg hk, if_neg he2]
    · rw [if_neg he, lookupKey, lookupKey]
      by_cases he2 : e.1 = k2
      · rw [if_pos he2, if_pos he2]
      · rw [if_neg he2, if_neg he2, ih]

theorem lookupKey_some_getD (m : List (String × Coll)) (k : String)
    (h : hasKey m k = true) : lookupKey m k = some ((lookupKey m k).getD []) := by
  rw [hasKey] at h
  cases hl : lookupKey m k with
  | none => rw [hl] at h; simp [Option.isSome] at h
  | some c => simp

theorem collSet_ne_nil (c : Coll) (k : Int) (v : Record) : collSet c k v ≠ [] := by
  cases c with
  | nil => simp [collSet]
  | cons e t =>
    rw [collSet]
    by_cases he : e.1 = k <;> simp [he]

theorem collSet_collSet_same (c : Coll) (k : Int) (v : Record) :
    collSet (collSet c k v) k v = collSet c k v := by
  induction c with
  | nil => simp [collSet]
  | cons e t ih =>
    rw [collSet]
    by_cases he : e.1 = k
    · rw [if_pos he]
      simp [collSet]
    · rw [if_neg he, collSet, if_neg he, ih]

theorem foldl_collSet_ne_nil (rows : List Row) : ∀ c : Coll, c ≠ [] →
    rows.foldl (fun c row => collSet c row.id (fromData row)) c ≠ [] := by
  induction rows with
  | nil => intro c hc; simpa using hc
  | cons r t ih =>
    intro c hc
    rw [List.foldl_cons]
    exact ih _ (collSet_ne_nil c r.id (fromData r))

theorem collOfRows_eq_nil_iff (rows : List Row) : collOfRows rows = [] ↔ rows = [] := by
  constructor
  · intro h
    cases rows with
    | nil => rfl
    | cons r t =>
      rw [collOfRows, List.foldl_cons] at h
      exact absurd h (foldl_collSet_ne_nil t _ (collSet_ne_nil [] r.id (fromData r)))
  · rintro rfl
    rfl

/-! ## Lemmas about the stable sort by id -/

theorem mem_insertById (x a : Int × Record) (l : Coll) :
    a ∈ insertById x l ↔ a = x ∨ a ∈ l := by
  induction l with
  | nil => simp [insertById]
  | cons y t ih =>
    rw [insertById]
    by_cases hle : idOf x.2 ≤ idOf y.2
    · simp [hle]
    · simp only [if_neg hle, List.mem_cons, ih]
      tauto

theorem insertById_perm (x : Int × Record) (l : Coll) :
    (insertById x l).Perm (x :: l) := by
  induction l with
  | nil => simp [insertById]
  | cons y t ih =>
    rw [insertById]
    by_cases hle : idOf x.2 ≤ idOf y.2
    · simp [hle]
    · rw [if_neg hle]
      exact (List.Perm.cons y ih).trans (List.Perm.swap x y t)

theorem sortById_perm (l : Coll) : (sortById l).Perm l := by
  induction l with
  | nil => simp [sortById]
  | cons x t ih =>
    rw [sortById]
    exact (insertById_perm x (sortById t)).trans (List.Perm.cons x ih)

theorem insertById_pairwise (x : Int × Record) (l : Coll)
    (h : l.Pairwise fun a b => idOf a.2 ≤ idOf b.2) :
    (insertById x l).Pairwise fun a b => idOf a.2 ≤ idOf b.2 := by
  induction l with
  | nil => simp [insertById]
  | cons y t ih =>
    rw [insertById]
    by_cases hle : idOf x.2 ≤ idOf y.2
    · rw [if_pos hle]
      refine List.Pairwise.cons ?_ h
      intro b hb
      rcases List.mem_cons.mp hb with rfl | hbt
      · exact hle
      · exact le_trans hle (List.rel_of_pairwise_cons h hbt)
    · rw [if_neg hle]
      refine List.Pairwise.cons ?_ (ih (List.Pairwise.of_cons h))
      intro b hb
      rcases (mem_insertById x b t).mp hb with rfl | hbt
      · exact le_of_not_le hle
      · exact List.rel_of_pairwise_cons h hbt

theorem sortById_pairwise (l : Coll) :
    (sortById l).Pairwise fun a b => idOf a.2 ≤ idOf b.2 := by
  induction l with
  | nil => simp [sortById]
  | cons x t ih =>
    rw [sortById]
    exact insertById_pairwise x (sortById t) ih

/-! ## Lemmas about the overview chunking -/

theorem joinStr_nil : joinStr [] = "" := rfl

theorem joinStr_cons (s : String) (l : List String) :
    joinStr (s :: l) = s ++ joinStr l := rfl

theorem joinStr_length (l : List String) :
    (joinStr l).length = (l.map String.length).sum := by
  induction l with
  | nil => rfl
  | cons s t ih => simp [joinStr_cons, String.length_append, ih]

theorem chunkAux_join (l : List String) : ∀ text : String,
    joinStr (chunkAux text l) = text ++ joinStr l := by
  induction l with
  | nil =>
    intro text
    by_cases ht : text = ""
    · simp [chunkAux, ht, joinStr_nil]
    · simp [chunkAux, ht, joinStr_cons, joinStr_nil]
  | cons info rest ih =>
    intro text
    rw [chunkAux]
    by_cases hfit : text.length + info.length < 2000
    · rw [if_pos hfit, ih, joinStr_cons, String.append_assoc]
    · rw [if_neg hfit, joinStr_cons, ih, joinStr_cons]

theorem chunkAux_short (l : List String) : ∀ text : String, text.length < 2000 →
    (∀ s ∈ l, s.length < 2000) → ∀ c ∈ chunkAux text l, c.length < 2000 := by
  induction l with
  | nil =>
    intro text htext _ c hc
    rw [chunkAux] at hc
    by_cases ht : text = ""
    · simp [ht] at hc
    · simp only [if_neg ht, List.mem_singleton] at hc
      exact hc ▸ htext
  | cons info rest ih =>
    intro text htext hall c hc
    rw [chunkAux] at hc
    by_cases hfit : text.length + info.length < 2000
    · rw [if_pos hfit] at hc
      refine ih (text ++ info) ?_ (fun s hs => hall s (List.mem_cons_of_mem info hs)) c hc
      simpa [String.length_append] using hfit
    · rw [if_neg hfit] at hc
      rcases List.mem_cons.mp hc with rfl | hc2
      · exact htext
      · exact ih info (hall info (List.mem_cons_self info rest))
          (fun s hs => hall s (List.mem_cons_of_mem info hs)) c hc2

/-! ## Lemmas about the channel-cache fold of save -/

theorem foldl_save_not_mem (i : Int) (r : Record) (l : List String) :
    ∀ (m : List (String × Coll)) (ch : String), ch ∉ l →
    lookupKey (l.foldl (fun m2 ch2 =>
      match lookupKey m2 ch2 with
      | none => m2
      | some c => setKey m2 ch2 (collSet c i r)) m) ch = lookupKey m ch := by
  induction l with
  | nil => intro m ch _; rfl
  | cons a t ih =>
    intro m ch hch
    have hne : ch ≠ a := fun h => hch (h ▸ List.mem_cons_self a t)
    rw [List.foldl_cons]
    rw [ih _ ch (fun h => hch (List.mem_cons_of_mem a h))]
    cases hla : lookupKey m a with
    | none => rfl
    | some c => simp only [hla]; exact lookupKey_setKey_ne m a ch (collSet c i r) hne

theorem foldl_save_none (i : Int) (r : Record) (l : List String) :
    ∀ (m : List (String × Coll)) (ch : String), lookupKey m ch = none →
    lookupKey (l.foldl (fun m2 ch2 =>
      match lookupKey m2 ch2 with
      | none => m2
      | some c => setKey m2 ch2 (collSet c i r)) m) ch = none := by
  induction l with
  | nil => intro m ch h; exact h
  | cons a t ih =>
    intro m ch h
    rw [List.foldl_cons]
    by_cases hne : ch = a
    · subst hne
      rw [h]
      exact ih m ch h
    · cases hla : lookupKey m a with
      | none => exact ih m ch h
      | some c =>
        simp only [hla]
        exact ih _ ch ((lookupKey_setKey_ne m a ch (collSet c i r) hne).trans h)

theorem foldl_save_mem (i : Int) (r : Record) (l : List String) :
    ∀ (m : List (String × Coll)) (ch : String) (c : Coll), ch ∈ l →
    (lookupKey m ch = some c ∨ lookupKey m ch = some (collSet c i r)) →
    lookupKey (l.foldl (fun m2 ch2 =>
      match lookupKey m2 ch2 with
      | none => m2
      | some c2 => setKey m2 ch2 (collSet c2 i r)) m) ch = some (collSet c i r) := by
  induction l with
  | nil => intro m ch c hch _; simp at hch
  | cons a t ih =>
    intro m ch c hch hcur
    rw [List.foldl_cons]
    by_cases heq : ch = a
    · subst heq
      rcases hcur with hcur | hcur
      all_goals rw [hcur]
      · by_cases hmem : ch ∈ t
        · exact ih _ ch c hmem (Or.inr (lookupKey_setKey_self m ch (collSet c i r)))
        · rw [foldl_save_not_mem i r t _ ch hmem]
          exact lookupKey_setKey_self m ch (collSet c i r)
      · by_cases hmem : ch ∈ t
        · refine ih _ ch c hmem (Or.inr ?_)
          rw [lookupKey_setKey_self m ch (collSet (collSet c i r) i r),
            collSet_collSet_same]
        · rw [foldl_save_not_mem i r t _ ch hmem,
            lookupKey_setKey_self m ch (collSet (collSet c i r) i r),
            collSet_collSet_same]
    · have hmem : ch ∈ t := by
        rcases List.mem_cons.mp hch with h | h
        · exact absurd h heq
        · exact h
      cases hla : lookupKey m a with
      | none => exact ih m ch c hmem hcur
      | some c2 =>
        simp only [hla]
        refine ih _ ch c hmem ?_
        rw [lookupKey_setKey_ne m a ch (collSet c2 i r) heq]
        exact hcur

/-! ## Claim theorems -/

/-- C1: for the phishing trigger `discord.com(gg):0.5`, `matches` is false on
a message containing `https://discord.gg/x` (allowed alternate extension),
true on `https://discord.net/x` (main part matches, extension disallowed),
true on `https://discrod.com/x` (the Dice bigram similarity of `discord` and
`discrod` is exactly `1/2`, reaching the `0.5` threshold), and false on
`https://support.discord.com/x` (subdomain with an allowed extension); the
regex engine `rt` is irrelevant to the phishing branch. -/
theorem c1_phishing_examples (rt : String → Option String → String → Bool) :
    ctfMatches rt ⟨"phishing", "discord.com(gg):0.5", none⟩
      "visit https://discord.gg/x" = false ∧
    ctfMatches rt ⟨"phishing", "discord.com(gg):0.5", none⟩
      "visit https://discord.net/x" = true ∧
    ctfMatches rt ⟨"phishing", "discord.com(gg):0.5", none⟩
      "visit https://discrod.com/x" = true ∧
    ctfMatches rt ⟨"phishing", "discord.com(gg):0.5", none⟩
      "visit https://support.discord.com/x" = false ∧
    compareTwoStrings "discord".data "discrod".data = mkRat 1 2 := by
  exact ⟨rfl, rfl, rfl, rfl, by decide⟩

/-- C10: a trigger whose type is none of the four recognised kinds matches no
message; the switch falls through and `matches` returns `false` without
consulting any branch (in particular it cannot throw). -/
theorem c10_unknown_type (rt : String → Option String → String → Bool)
    (t : Trigger) (msg : String) (h : t.type ∉ triggerTypes) :
    ctfMatches rt t msg = false := by
  simp only [triggerTypes, List.mem_cons, List.not_mem_nil, or_false] at h
  push_neg at h
  rw [ctfMatches, if_neg h.2.1, if_neg h.2.2.1, if_neg h.1, if_neg h.2.2.2]

/-- Witness for C10 at the concrete unrecognised kind `foo`. -/
theorem c10_unknown_type_witness :
    (("foo" : String) ∉ triggerTypes) ∧
    ctfMatches rtFalse ⟨"foo", "x", none⟩ "hello" = false :=
  ⟨by decide, c10_unknown_type rtFalse ⟨"foo", "x", none⟩ "hello" (by decide)⟩

/-- C9: an `include` trigger matches exactly the messages whose lower-cased
text contains the lower-cased content as a contiguous segment, and a `match`
trigger exactly those whose lower-cased text equals it. -/
theorem c9_include_match (rt : String → Option String → String → Bool)
    (t : Trigger) (msg : String) :
    (t.type = "include" →
      (ctfMatches rt t msg = true ↔
        ∃ p s, lcList msg.data = p ++ lcList t.content.data ++ s)) ∧
    (t.type = "match" →
      (ctfMatches rt t msg = true ↔ lcList msg.data = lcList t.content.data)) := by
  constructor
  · intro h
    rw [ctfMatches, if_pos h]
    exact strContains_iff (lcList msg.data) (lcList t.content.data)
  · intro h
    have hne : ¬ t.type = "include" := by rw [h]; decide
    rw [ctfMatches, if_neg hne, if_pos h]
    simp

/-- Witness for C9 at concrete include and match triggers. -/
theorem c9_include_match_witness :
    (∃ p s, lcList "heLLo there".data = p ++ lcList "LO T".data ++ s) ∧
    lcList "ABC".data = lcList "abc".data :=
  ⟨((c9_include_match rtFalse ⟨"include", "LO T", none⟩ "heLLo there").1 rfl).mp
      (by decide),
   ((c9_include_match rtFalse ⟨"match", "abc", none⟩ "ABC").2 rfl).mp (by decide)⟩

/-- C2 counterexample: on the insert path (id unset) a serialisation whose
length differs from the declared column count raises no structural error; the
INSERT write is issued with the mismatched values anyway (the declared-column
check of `save()` exists only on the update path). -/
theorem c2_insert_no_check :
    saveDbPhase String ["guildid", "trigger", "punishment"] none ["x"]
      = .ok (.ins ["x"]) ∧
    (["x"] : List String).length ≠ ["guildid", "trigger", "punishment"].length :=
  ⟨rfl, by decide⟩

/-- C2 amended: only the update path (truthy id) compares the serialised
length with the declared column count before issuing the write, throwing the
structural error string on mismatch; the insert path issues the INSERT
without any such check. -/
theorem c2_save_db (α : Type) (cols : List String) (data : List α) :
    (∀ n : Int, n ≠ 0 → data.length ≠ cols.length →
      saveDbPhase α cols (some n) data = .error "Unable to update, lengths differ!") ∧
    (∀ n : Int, n ≠ 0 → data.length = cols.length →
      saveDbPhase α cols (some n) data = .ok (.upd data n)) ∧
    saveDbPhase α cols none data = .ok (.ins data) := by
  refine ⟨?_, ?_, rfl⟩
  · intro n hn hlen
    have ht : jsTruthyId (some n) = true := by simp [jsTruthyId, hn]
    rw [saveDbPhase, if_pos ht, if_pos hlen]
  · intro n hn hlen
    have ht : jsTruthyId (some n) = true := by simp [jsTruthyId, hn]
    rw [saveDbPhase, if_pos ht, if_neg (by simp [hlen])]
    rfl

/-- Witness for the amended C2 at concrete column lists. -/
theorem c2_save_db_witness :
    saveDbPhase Nat ["a"] (some 1) [5, 6] = .error "Unable to update, lengths differ!" ∧
    saveDbPhase Nat ["a", "b"] (some 1) [5, 6] = .ok (.upd [5, 6] 1) :=
  ⟨(c2_save_db Nat ["a"] [5, 6]).1 1 (by decide) (by decide),
   (c2_save_db Nat ["a", "b"] [5, 6]).2.1 1 (by decide) (by decide)⟩

/-- A concrete row whose channels string holds the single id `1234567`; the
channel id `345` occurs in it only as a substring. -/
def row345 : Row := ⟨1, "g1", ⟨"include", "x", none⟩, 0, "1234567"⟩

/-- C3 counterexample: loading the channel scope for channel `345` installs
the record of `row345` although `345` is not a member of its channels list —
the `LIKE '%345%'` filter is a substring test on the comma-joined string, not
a membership test. -/
theorem c3_substring_cex :
    lookupKey (refreshChannel [row345] "345" emptyCache).channels "345"
      = some [(1, fromData row345)] ∧
    "345" ∉ (fromData row345).channels := by
  exact ⟨by decide, by decide⟩

/-- C3 amended: `refreshChannel` installs under the channel key exactly the
records of the rows whose stored comma-joined channels string contains the
channel id as a substring; membership of the id in the stored list implies
selection, but (per the counterexample) not conversely.  Other channel keys
and the guild map are untouched. -/
theorem c3_refresh_channel (table : List Row) (cid : String) (st : CacheState) :
    lookupKey (refreshChannel table cid st).channels cid
      = some (collOfRows (channelQueryRows table cid)) ∧
    (∀ k, k ≠ cid → lookupKey (refreshChannel table cid st).channels k
      = lookupKey st.channels k) ∧
    (refreshChannel table cid st).guilds = st.guilds ∧
    (∀ row ∈ table, cid ∈ (fromData row).channels →
      row ∈ channelQueryRows table cid) := by
  refine ⟨lookupKey_setKey_self _ _ _,
    fun k hk => lookupKey_setKey_ne _ _ _ _ hk, rfl, ?_⟩
  intro row hrow hmem
  rw [channelQueryRows, List.mem_filter]
  refine ⟨hrow, ?_⟩
  have hdata : cid.data ∈ splitOnChar ',' row.channels.data := by
    simp only [fromData] at hmem
    obtain ⟨l, hl, hlm⟩ := List.mem_map.mp hmem
    have hld : l = cid.data := congrArg String.data hlm
    exact hld ▸ hl
  obtain ⟨A, B, hAB⟩ := splitOnChar_mem_infix ',' row.channels.data cid.data hdata
  rw [strContains_iff]
  exact ⟨A, B, hAB⟩

/-- A concrete row whose channels list properly contains the id `222`. -/
def rowMem : Row := ⟨2, "g1", ⟨"include", "x", none⟩, 0, "111,222"⟩

/-- Witness for the amended C3: a listed channel id is selected, and a
different key of the empty cache stays empty. -/
theorem c3_refresh_channel_witness :
    rowMem ∈ channelQueryRows [rowMem] "222" ∧
    lookupKey (refreshChannel [rowMem] "222" emptyCache).channels "999" = none :=
  ⟨(c3_refresh_channel [rowMem] "222" emptyCache).2.2.2 rowMem (by decide) (by decide),
   (c3_refresh_channel [rowMem] "222" emptyCache).2.1 "999" (by decide)⟩

/-- C4 amended (the split direction corrected): the phishing content is split
at the *first* colon — the domain spec is the text before it and the
threshold the text between the first and second colons, with `0.5` used when
the threshold is absent or parses to `NaN`; when the lower-cased domain spec
fails the anchored domain pattern, the trigger matches no message at all. -/
theorem c4_phishing_parse :
    (∀ (rt : String → Option String → String → Bool) (t : Trigger) (msg : String),
      t.type = "phishing" →
      domainSpecMatch (lcList (jsSplitColon2 t.content.data).1) = none →
      ctfMatches rt t msg = false) ∧
    (∀ content msg : List Char, ':' ∉ content →
      phishingMatches content msg
        = phishingMatches (content ++ ':' :: ['0', '.', '5']) msg) ∧
    (∀ domain simStr msg : List Char, ':' ∉ domain → ':' ∉ simStr →
      jsParseFloat simStr = .nan →
      phishingMatches (domain ++ ':' :: simStr) msg
        = phishingMatches (domain ++ ':' :: ['0', '.', '5']) msg) := by
  refine ⟨?_, ?_, ?_⟩
  · intro rt t msg ht hparse
    rw [ctfMatches, if_neg (by rw [ht]; decide), if_neg (by rw [ht]; decide),
      if_neg (by rw [ht]; decide), if_pos ht, phishingMatches]
    simp only [phishingRun]
    rw [hparse]
  · intro content msg hc
    have h1 : jsSplitColon2 content = (content, none) := by
      rw [jsSplitColon2, splitOnChar_not_mem ':' content hc]
    have h2 : jsSplitColon2 (content ++ ':' :: ['0', '.', '5'])
        = (content, some ['0', '.', '5']) := by
      rw [jsSplitColon2, splitOnChar_append_sep ':' content ['0', '.', '5'] hc,
        show splitOnChar ':' ['0', '.', '5'] = [['0', '.', '5']] from by decide]
    have hs : simThreshold (some ['0', '.', '5']) = simThreshold none := by decide
    rw [phishingMatches, phishingMatches, h1, h2]
    simp only [phishingRun, hs]
  · intro domain simStr msg hd hs hnan
    have h1 : jsSplitColon2 (domain ++ ':' :: simStr) = (domain, some simStr) := by
      rw [jsSplitColon2, splitOnChar_append_sep ':' domain simStr hd,
        splitOnChar_not_mem ':' simStr hs]
    have h2 : jsSplitColon2 (domain ++ ':' :: ['0', '.', '5'])
        = (domain, some ['0', '.', '5']) := by
      rw [jsSplitColon2, splitOnChar_append_sep ':' domain ['0', '.', '5'] hd,
        show splitOnChar ':' ['0', '.', '5'] = [['0', '.', '5']] from by decide]
    have h3 : simThreshold (some simStr) = JsNum.val (mkRat 1 2) := by
      simp only [simThreshold, hnan]
    have h4 : simThreshold (some ['0', '.', '5']) = JsNum.val (mkRat 1 2) := by decide
    rw [phishingMatches, phishingMatches, h1, h2]
    simp only [phishingRun, h3, h4]

/-- C4 counterexample: for the content `discord.com:0.9:0.1` the code splits
at the first colon (domain spec `discord.com`, threshold `0.9`) and does not
flag `https://discrod.com/x`; splitting at the first colon from the right
(domain spec `discord.com:0.9`, threshold `0.1`), as the claim words it,
would flag it. -/
theorem c4_right_split_cex :
    phishingRightSplit "discord.com:0.9:0.1".data
      "visit https://discrod.com/x".data = true ∧
    ctfMatches rtFalse ⟨"phishing", "discord.com:0.9:0.1", none⟩
      "visit https://discrod.com/x" = false :=
  ⟨by decide, by decide⟩

/-- Witness for the amended C4: the malformed spec `nodot` fires on no
message, and an absent threshold behaves exactly like an explicit `0.5`. -/
theorem c4_phishing_parse_witness :
    ctfMatches rtFalse ⟨"phishing", "nodot", none⟩ "visit https://discord.gg/x" = false ∧
    phishingMatches "discord.com".data "visit https://discrod.com/x".data
      = phishingMatches ("discord.com".data ++ ':' :: ['0', '.', '5'])
          "visit https://discrod.com/x".data :=
  ⟨c4_phishing_parse.1 rtFalse ⟨"phishing", "nodot", none⟩ "visit https://discord.gg/x"
      rfl (by decide),
   c4_phishing_parse.2.1 "discord.com".data "visit https://discrod.com/x".data
      (by decide)⟩

/-! ## Lemmas about scope reloads -/

theorem refreshChannel_guilds (table : List Row) (cid : String) (st : CacheState) :
    (refreshChannel table cid st).guilds = st.guilds := rfl

theorem refreshGuild_channels (table : List Row) (gid : String) (st : CacheState) :
    (refreshGuild table gid st).channels = st.channels := rfl

theorem hasKey_setKey_self (m : List (String × Coll)) (k : String) (v : Coll) :
    hasKey (setKey m k v) k = true := by
  rw [hasKey, lookupKey_setKey_self]
  rfl

/-- A Boolean cannot be both true and false. -/
theorem bool_contra {b : Bool} {C : Prop} (h1 : b = true) (h2 : b = false) : C :=
  absurd (h1.symm.trans h2) (by decide)

/-- C5: `get` loads each missing scope from the store — a missing channel or
guild entry is installed as the corresponding query result while a present
entry is left as it was — and the returned collection is a permutation of the
concatenation of the two cached scope collections, sorted ascending by record
id. -/
theorem c5_get_merged (table : List Row) (cid gid : String) (st : CacheState) :
    hasKey (ctfGet table cid gid st).2.channels cid = true ∧
    hasKey (ctfGet table cid gid st).2.guilds gid = true ∧
    (hasKey st.channels cid = false →
      lookupKey (ctfGet table cid gid st).2.channels cid
        = some (collOfRows (channelQueryRows table cid))) ∧
    (hasKey st.channels cid = true →
      lookupKey (ctfGet table cid gid st).2.channels cid = lookupKey st.channels cid) ∧
    (hasKey st.guilds gid = false →
      lookupKey (ctfGet table cid gid st).2.guilds gid
        = some (collOfRows (guildQueryRows table gid))) ∧
    (hasKey st.guilds gid = true →
      lookupKey (ctfGet table cid gid st).2.guilds gid = lookupKey st.guilds gid) ∧
    (ctfGet table cid gid st).1.Perm
      (collConcat ((lookupKey (ctfGet table cid gid st).2.channels cid).getD [])
        ((lookupKey (ctfGet table cid gid st).2.guilds gid).getD [])) ∧
    (ctfGet table cid gid st).1.Pairwise fun a b => idOf a.2 ≤ idOf b.2 := by
  by_cases hc : hasKey st.channels cid = true
  · by_cases hg : hasKey st.guilds gid = true
    · simp only [ctfGet]
      rw [if_pos hc, if_pos hg]
      exact ⟨hc, hg, fun h => bool_contra hc h, fun _ => rfl,
        fun h => bool_contra hg h, fun _ => rfl,
        sortById_perm _, sortById_pairwise _⟩
    · simp only [ctfGet]
      rw [if_pos hc, if_neg hg]
      exact ⟨hc, hasKey_setKey_self _ _ _, fun h => bool_contra hc h, fun _ => rfl,
        fun _ => lookupKey_setKey_self _ _ _, fun h => absurd h hg,
        sortById_perm _, sortById_pairwise _⟩
  · by_cases hg : hasKey st.guilds gid = true
    · simp only [ctfGet, refreshChannel]
      rw [if_neg hc, if_pos hg]
      exact ⟨hasKey_setKey_self _ _ _, hg, fun _ => lookupKey_setKey_self _ _ _,
        fun h => absurd h hc, fun h => bool_contra hg h, fun _ => rfl,
        sortById_perm _, sortById_pairwise _⟩
    · simp only [ctfGet, refreshChannel, refreshGuild]
      rw [if_neg hc, if_neg hg]
      exact ⟨hasKey_setKey_self _ _ _, hasKey_setKey_self _ _ _,
        fun _ => lookupKey_setKey_self _ _ _, fun h => absurd h hc,
        fun _ => lookupKey_setKey_self _ _ _, fun h => absurd h hg,
        sortById_perm _, sortById_pairwise _⟩

/-- A concrete row used by the cache witnesses: global record of guild `g2`
with channel `111` listed. -/
def rowW : Row := ⟨3, "g2", ⟨"include", "x", none⟩, 1, "111"⟩

/-- Witness for C5: on an empty cache both scopes are loaded from the
store. -/
theorem c5_get_merged_witness :
    lookupKey (ctfGet [rowW] "111" "g2" emptyCache).2.channels "111"
      = some (collOfRows (channelQueryRows [rowW] "111")) ∧
    lookupKey (ctfGet [rowW] "111" "g2" emptyCache).2.guilds "g2"
      = some (collOfRows (guildQueryRows [rowW] "g2")) :=
  ⟨(c5_get_merged [rowW] "111" "g2" emptyCache).2.2.1 rfl,
   (c5_get_merged [rowW] "111" "g2" emptyCache).2.2.2.2.1 rfl⟩

/-- C6: the cache half of `save` is write-through on exactly the scopes the
record belongs to.  A global record touches only the guild entry of its own
guild, and only when that entry is cached, where the record is `set` under
its id; the channel map is untouched.  A non-global record touches only the
cached channel entries among its channels, where it is `set` under its id;
the guild map is untouched.  Uncached scope keys stay absent. -/
theorem c6_save_write_through (r : Record) (i : Int) (st : CacheState) :
    (r.global = true →
      (saveCachePhase r i st).channels = st.channels ∧
      (∀ g, g ≠ r.gid →
        lookupKey (saveCachePhase r i st).guilds g = lookupKey st.guilds g) ∧
      (lookupKey st.guilds r.gid = none → saveCachePhase r i st = st) ∧
      (∀ c, lookupKey st.guilds r.gid = some c →
        lookupKey (saveCachePhase r i st).guilds r.gid = some (collSet c i r))) ∧
    (r.global = false →
      (saveCachePhase r i st).guilds = st.guilds ∧
      (∀ ch, ch ∉ r.channels →
        lookupKey (saveCachePhase r i st).channels ch = lookupKey st.channels ch) ∧
      (∀ ch, lookupKey st.channels ch = none →
        lookupKey (saveCachePhase r i st).channels ch = none) ∧
      (∀ ch c, ch ∈ r.channels → lookupKey st.channels ch = some c →
        lookupKey (saveCachePhase r i st).channels ch = some (collSet c i r))) := by
  constructor
  · intro hglob
    rw [saveCachePhase, if_pos hglob]
    cases hl : lookupKey st.guilds r.gid with
    | none =>
      exact ⟨rfl, fun g _ => rfl, fun _ => rfl, fun c hc => Option.noConfusion hc⟩
    | some c0 =>
      refine ⟨rfl, ?_, ?_, ?_⟩
      · intro g hgne
        exact lookupKey_setKey_ne st.guilds r.gid g (collSet c0 i r) hgne
      · intro hnone
        exact Option.noConfusion hnone
      · intro c hc
        obtain rfl := Option.some.inj hc
        exact lookupKey_setKey_self st.guilds r.gid (collSet c0 i r)
  · intro hnglob
    rw [saveCachePhase, if_neg (by rw [hnglob]; decide)]
    refine ⟨rfl, ?_, ?_, ?_⟩
    · intro ch hch
      exact foldl_save_not_mem i r r.channels st.channels ch hch
    · intro ch hch
      exact foldl_save_none i r r.channels st.channels ch hch
    · intro ch c hmem hsome
      exact foldl_save_mem i r r.channels st.channels ch c hmem (Or.inl hsome)

/-- A concrete global record of guild `g1`. -/
def recG : Record := ⟨some 5, ⟨"include", "x", none⟩, true, "g1", []⟩

/-- A concrete channel-scoped record listing channels `111` and `222`. -/
def recC : Record := ⟨some 6, ⟨"include", "x", none⟩, false, "g1", ["111", "222"]⟩

/-- A cache holding an empty collection for channel `111` and guild `g1`. -/
def stW : CacheState := ⟨[("111", [])], [("g1", [])]⟩

/-- Witness for C6: the cached guild entry receives the global record, the
cached channel entry receives the channel record, and the uncached channel
`222` stays absent. -/
theorem c6_save_write_through_witness :
    lookupKey (saveCachePhase recG 5 stW).guilds "g1" = some (collSet [] 5 recG) ∧
    lookupKey (saveCachePhase recC 6 stW).channels "111" = some (collSet [] 6 recC) ∧
    lookupKey (saveCachePhase recC 6 stW).channels "222" = none :=
  ⟨((c6_save_write_through recG 5 stW).1 rfl).2.2.2 [] (by decide),
   ((c6_save_write_through recC 6 stW).2 rfl).2.2.2 "111" [] (by decide) (by decide),
   ((c6_save_write_through recC 6 stW).2 rfl).2.2.1 "222" (by decide)⟩

/-- C7: `getTrigger` always returns a structured result (it is a total
function by construction, modelling "never throws").  The cases, in the order
the code checks them: an unrecognised kind yields the usage message; an empty
value the empty-trigger message; for the regex kind, a value whose
unescaped-slash split has fewer than two segments (no unescaped `/` at all)
or a nonempty leading segment (text before the first `/`) yields the
invalid-regex message, as does a pattern/flags pair the engine rejects; every
remaining case returns success with the constructed trigger. -/
theorem c7_get_trigger (compiles : String → Option String → Bool)
    (type value : String) :
    (type ∉ triggerTypes →
      getTrigger compiles type value
        = ⟨false, some "Usage: <type> <trigger>", none⟩) ∧
    (type ∈ triggerTypes → value = "" →
      getTrigger compiles type value
        = ⟨false, some "Empty triggers are not allowed", none⟩) ∧
    (type = "regex" → value ≠ "" →
      (splitUnescapedSlash value.data).length < 2 ∨
        (splitUnescapedSlash value.data).headD [] ≠ [] →
      getTrigger compiles type value = ⟨false, some "Invalid regex trigger", none⟩) ∧
    (type = "regex" → value ≠ "" →
      2 ≤ (splitUnescapedSlash value.data).length →
      (splitUnescapedSlash value.data).headD [] = [] →
      (compiles (String.mk ((splitUnescapedSlash value.data).tail.headD []))
          (((splitUnescapedSlash value.data).tail.tail.head?).map String.mk) = false →
        getTrigger compiles type value
          = ⟨false, some "Invalid regex trigger", none⟩) ∧
      (compiles (String.mk ((splitUnescapedSlash value.data).tail.headD []))
          (((splitUnescapedSlash value.data).tail.tail.head?).map String.mk) = true →
        getTrigger compiles type value
          = ⟨true, none, some ⟨type,
              String.mk ((splitUnescapedSlash value.data).tail.headD []),
              ((splitUnescapedSlash value.data).tail.tail.head?).map String.mk⟩⟩)) ∧
    (type ∈ triggerTypes → type ≠ "regex" → value ≠ "" →
      getTrigger compiles type value = ⟨true, none, some ⟨type, value, none⟩⟩) := by
  refine ⟨?_, ?_, ?_, ?_, ?_⟩
  · intro h
    rw [getTrigger, if_pos h]
  · intro hmem hv
    rw [getTrigger, if_neg (not_not_intro hmem), if_pos hv]
  · intro ht hv hcond
    have hmem : type ∈ triggerTypes := by rw [ht]; decide
    simp only [getTrigger]
    rw [if_neg (not_not_intro hmem), if_neg hv, if_pos ht, if_pos ?_]
    rcases hcond with h | h
    · exact Or.inl h
    · exact Or.inr fun h0 => h (List.length_eq_zero.mp h0)
  · intro ht hv hlen hhead
    have hmem : type ∈ triggerTypes := by rw [ht]; decide
    have hnc : ¬ ((splitUnescapedSlash value.data).length < 2 ∨
        ((splitUnescapedSlash value.data).headD []).length ≠ 0) := by
      push_neg
      exact ⟨hlen, by rw [hhead]; rfl⟩
    constructor
    · intro hcomp
      simp only [getTrigger]
      rw [if_neg (not_not_intro hmem), if_neg hv, if_pos ht, if_neg hnc,
        if_neg (by rw [hcomp]; decide)]
    · intro hcomp
      simp only [getTrigger]
      rw [if_neg (not_not_intro hmem), if_neg hv, if_pos ht, if_neg hnc, if_pos hcomp]
  · intro hmem hnr hv
    rw [getTrigger, if_neg (not_not_intro hmem), if_neg hv, if_neg hnr]

/-- Witness for C7: one success and two failure shapes at concrete inputs. -/
theorem c7_get_trigger_witness :
    getTrigger (fun _ _ => true) "include" "x"
      = ⟨true, none, some ⟨"include", "x", none⟩⟩ ∧
    getTrigger (fun _ _ => true) "regex" "abc"
      = ⟨false, some "Invalid regex trigger", none⟩ ∧
    getTrigger (fun _ _ => false) "regex" "/abc/i"
      = ⟨false, some "Invalid regex trigger", none⟩ ∧
    getTrigger (fun _ _ => true) "regex" "/abc/i"
      = ⟨true, none, some ⟨"regex", "abc", some "i"⟩⟩ :=
  ⟨(c7_get_trigger (fun _ _ => true) "include" "x").2.2.2.2 (by decide) (by decide)
      (by decide),
   (c7_get_trigger (fun _ _ => true) "regex" "abc").2.2.1 rfl (by decide)
      (Or.inl (by decide)),
   ((c7_get_trigger (fun _ _ => false) "regex" "/abc/i").2.2.2.1 rfl (by decide)
      (by decide) (by decide)).1 rfl,
   ((c7_get_trigger (fun _ _ => true) "regex" "/abc/i").2.2.2.1 rfl (by decide)
      (by decide) (by decide)).2 rfl⟩

theorem isEmpty_true_iff (l : Coll) : l.isEmpty = true ↔ l = [] := by
  cases l <;> simp [List.isEmpty]

theorem sortById_eq_nil_iff (l : Coll) : sortById l = [] ↔ l = [] := by
  have hlen := (sortById_perm l).length_eq
  constructor
  · intro h
    rw [h] at hlen
    exact List.length_eq_zero.mp hlen.symm
  · rintro rfl
    rfl

/-- C8: `getGuildOverview` is absent exactly when the guild has no rows;
otherwise, provided every summary is shorter than 2000 characters, the
returned chunks concatenate to the in-order concatenation of the summaries,
each chunk is shorter than 2000 characters, and there is more than one chunk
whenever the summaries total more than 2000 characters. -/
theorem c8_guild_overview (table : List Row) (gid : String) (ov : Record → String) :
    (getGuildOverview table gid ov = none ↔
      table.filter (fun row => decide (row.guildid = gid)) = []) ∧
    (∀ chunks, getGuildOverview table gid ov = some chunks →
      (∀ kv ∈ getAllColl table gid, (ov kv.2).length < 2000) →
      joinStr chunks = joinStr ((getAllColl table gid).map fun kv => ov kv.2) ∧
      (∀ c ∈ chunks, c.length < 2000) ∧
      (2000 < (joinStr ((getAllColl table gid).map fun kv => ov kv.2)).length →
        1 < chunks.length)) := by
  constructor
  · rw [getGuildOverview]
    by_cases he : (getAllColl table gid).isEmpty = true
    · rw [if_pos he]
      have hrows : table.filter (fun row => decide (row.guildid = gid)) = [] := by
        have h1 := (isEmpty_true_iff _).mp he
        rw [getAllColl] at h1
        exact (collOfRows_eq_nil_iff _).mp ((sortById_eq_nil_iff _).mp h1)
      exact ⟨fun _ => hrows, fun _ => rfl⟩
    · rw [if_neg he]
      constructor
      · intro h
        exact Option.noConfusion h
      · intro hrows
        exfalso
        apply he
        rw [getAllColl, hrows]
        rfl
  · intro chunks hsome hshort
    rw [getGuildOverview] at hsome
    by_cases he : (getAllColl table gid).isEmpty = true
    · rw [if_pos he] at hsome
      exact Option.noConfusion hsome
    · rw [if_neg he] at hsome
      obtain rfl := (Option.some.inj hsome).symm
      have hmapshort : ∀ s ∈ (getAllColl table gid).map fun kv => ov kv.2,
          s.length < 2000 := by
        intro s hs
        obtain ⟨kv, hkv, rfl⟩ := List.mem_map.mp hs
        exact hshort kv hkv
      have hjoin : joinStr (chunkOverviews ((getAllColl table gid).map fun kv => ov kv.2))
          = joinStr ((getAllColl table gid).map fun kv => ov kv.2) := by
        rw [chunkOverviews, chunkAux_join]
        simp [joinStr]
      have hlt : ∀ c ∈ chunkOverviews ((getAllColl table gid).map fun kv => ov kv.2),
          c.length < 2000 :=
        chunkAux_short _ "" (by decide) hmapshort
      refine ⟨hjoin, hlt, ?_⟩
      intro htot
      by_contra hle
      push_neg at hle
      match hck : chunkOverviews ((getAllColl table gid).map fun kv => ov kv.2) with
      | [] =>
        rw [hck] at hjoin
        rw [← hjoin] at htot
        simp [joinStr] at htot
      | [c] =>
        rw [hck] at hjoin hlt
        rw [← hjoin] at htot
        have hc := hlt c (List.mem_singleton_self c)
        have : (joinStr [c]).length = c.length := by
          rw [joinStr_cons, joinStr_nil, String.length_append]
          rfl
        omega
      | c1 :: c2 :: cr =>
        rw [hck] at hle
        simp at hle

/-- Summary function used by the C8 witness. -/
def ovW : Record → String := fun _ => "abc"

/-- Witness for C8: one record of guild `g2` with summary `abc` yields the
single chunk `abc`. -/
theorem c8_guild_overview_witness :
    joinStr ["abc"] = joinStr ((getAllColl [rowW] "g2").map fun kv => ovW kv.2) ∧
    (∀ c ∈ (["abc"] : List String), c.length < 2000) ∧
    (2000 < (joinStr ((getAllColl [rowW] "g2").map fun kv => ovW kv.2)).length →
      1 < (["abc"] : List String).length) :=
  (c8_guild_overview [rowW] "g2" ovW).2 ["abc"] (by decide) (by decide)
